import Mathlib

/-! Trip expense ledger (src/js/app.js): a shallow embedding.

The ledger keeps one process-wide document (trip profile plus expense records),
recomputes its statistics on every render and writes the document to the
browser key-value store after each mutation.

Modelling conventions.

* A JS number is a `JsNum`: a finite value (a rational; the finite doubles are
  among them), NaN, or one of the two infinities. Addition and subtraction
  round the exact result to the nearest double, ties to even, and overflow to
  an infinity, as IEEE-754 binary64 does. The two zeros are not told apart.
* A JS object used as a dictionary is an association list in first-insertion
  order. That is how a plain object behaves on the keys that `plainKey`
  accepts: keys that are neither names inherited from Object.prototype (such
  as constructor or __proto__) nor canonical integers (which are enumerated
  first, in numeric order). The theorems on dictionaries carry that hypothesis.
* `Array.prototype.sort` is stable; for a consistent comparator its result is
  the unique stable arrangement, computed here by a stable insertion sort.
* Host facilities that are not code of this repository (`localStorage`,
  `JSON.parse`, `JSON.stringify`, `Number` on strings, `crypto.randomUUID`,
  `confirm`) are taken as explicit parameters or inputs.
-/

namespace TripLedger

/-! ## JS numbers -/

/-- A JS number: finite (exact rational), NaN, +Infinity or -Infinity. -/
inductive JsNum where
  | fin (q : ℚ)
  | nan
  | posInf
  | negInf
  deriving DecidableEq, Repr

namespace JsNum

/-- The JS builtin Number.isFinite on a number. -/
def isFinite : JsNum → Bool
  | fin _ => true
  | _ => false

/-- JS truthiness of a number: NaN and zero are falsy. -/
def truthy : JsNum → Bool
  | fin q => decide (q ≠ 0)
  | nan => false
  | _ => true

/-- The quotient N / D rounded to the nearest natural number, ties to even. -/
def roundHalfEven (N D : Nat) : Nat :=
  if 2 * (N % D) < D then N / D
  else if D < 2 * (N % D) then N / D + 1
  else if (N / D) % 2 = 0 then N / D else N / D + 1

/-- The position of the leading binary digit of n (for 0 < n < 2^4096), found
by bisection over the exponent. -/
def bitLog (n : Nat) : Nat :=
  ([2048, 1024, 512, 256, 128, 64, 32, 16, 8, 4, 2, 1].foldl
    (fun (p : Nat × Nat) b => if 2 ^ b ≤ p.1 then (p.1 / 2 ^ b, p.2 + b) else p) (n, 0)).2

/-- The number of low binary digits a double cannot keep of a magnitude of n
units: none below 2^53, otherwise all but the leading 53. -/
def dropBits (n : Nat) : Nat := if n < 2 ^ 53 then 0 else bitLog n - 52

/-- The number of units in 1, the unit being 2^-1074, the smallest positive
double: every finite double is a whole number of units. -/
@[irreducible]
def unitsInOne : Nat := 2 ^ 1074

/-- The magnitude 2^1024 in units: rounded results from here on overflow. -/
@[irreducible]
def overflowUnits : Nat := 2 ^ 2098

/-- The double nearest to a rational (IEEE-754 binary64, round to nearest,
ties to even): the magnitude in units is rounded to 53 significant binary
digits (to a whole number of units in the subnormal range), and a rounded
magnitude of 2^1024 or more overflows to an infinity. -/
def roundDouble (q : ℚ) : JsNum :=
  let N := q.num.natAbs * unitsInOne
  let k := dropBits (N / q.den)
  let m := roundHalfEven N (q.den * 2 ^ k) * 2 ^ k
  if overflowUnits ≤ m then (if q.num < 0 then .negInf else .posInf)
  else .fin ((if q.num < 0 then -(m : ℚ) else (m : ℚ)) / (unitsInOne : ℚ))

/-- JS addition of two numbers: the exact sum of two finite numbers is
rounded to the nearest double. -/
def add : JsNum → JsNum → JsNum
  | fin a, fin b => roundDouble (a + b)
  | nan, _ => nan
  | _, nan => nan
  | posInf, negInf => nan
  | negInf, posInf => nan
  | posInf, _ => posInf
  | _, posInf => posInf
  | negInf, _ => negInf
  | _, negInf => negInf

/-- JS unary minus. -/
def neg : JsNum → JsNum
  | fin a => fin (-a)
  | nan => nan
  | posInf => negInf
  | negInf => posInf

/-- JS subtraction of two numbers (the sum with the negation, rounded). -/
def sub (a b : JsNum) : JsNum := add a (neg b)

/-- JS comparison a <= b (false whenever an operand is NaN). -/
def le : JsNum → JsNum → Bool
  | fin a, fin b => decide (a ≤ b)
  | nan, _ => false
  | _, nan => false
  | negInf, _ => true
  | _, posInf => true
  | _, _ => false

/-- JS comparison a < b (false whenever an operand is NaN). -/
def lt : JsNum → JsNum → Bool
  | fin a, fin b => decide (a < b)
  | nan, _ => false
  | _, nan => false
  | posInf, _ => false
  | _, negInf => false
  | negInf, _ => true
  | _, posInf => true

/-- The JS builtin Math.max on two numbers: NaN if either operand is NaN. -/
def max : JsNum → JsNum → JsNum
  | nan, _ => nan
  | _, nan => nan
  | posInf, _ => posInf
  | _, posInf => posInf
  | negInf, b => b
  | a, negInf => a
  | fin a, fin b => fin (if a ≤ b then b else a)

/-- The rational value of a finite number (0 for the others). -/
def toRat : JsNum → ℚ
  | fin q => q
  | _ => 0

/-- A number other than NaN whose value, when finite, is a whole number of
units of 2^-1074. Every result of an addition of non-NaN numbers is one. -/
def OnGrid (v : JsNum) : Prop :=
  v ≠ nan ∧ ∀ q, v = fin q → ∃ z : ℤ, q = z / (unitsInOne : ℚ)

end JsNum

/-- The JS sum of a list of numbers: they are added one by one, left to
right, starting from 0, each addition rounding as JS addition does. -/
def jsSum (xs : List JsNum) : JsNum := xs.foldl JsNum.add (JsNum.fin 0)

/-- The JS expression `x || 0` where x is a number or undefined. -/
def orZero : Option JsNum → JsNum
  | some v => if v.truthy then v else JsNum.fin 0
  | none => JsNum.fin 0

/-! ## Dictionaries and sorting -/

/-- The property names that every plain object inherits from Object.prototype. -/
def objectPrototypeKeys : List String :=
  ["__proto__", "constructor", "hasOwnProperty", "isPrototypeOf", "propertyIsEnumerable",
    "toLocaleString", "toString", "valueOf", "__defineGetter__", "__defineSetter__",
    "__lookupGetter__", "__lookupSetter__"]

/-- Whether a key is a canonical non-negative integer (0, or digits without a
leading 0): a plain object enumerates such keys first, in numeric order. -/
def isIntegerKey (key : String) : Bool :=
  match key.toList with
  | [] => false
  | [c] => c.isDigit
  | c :: rest => c.isDigit && c != '0' && rest.all Char.isDigit

/-- The keys on which a plain object is a dictionary in insertion order: a
read of a key never written is undefined, and a new key is enumerated last. -/
def plainKey (key : String) : Bool :=
  !objectPrototypeKeys.contains key && !isIntegerKey key

/-- Property read `obj[key]` on a JS object used as a dictionary (none is
undefined), for plain keys. -/
def dictGet {β : Type} : List (String × β) → String → Option β
  | [], _ => none
  | (k, v) :: rest, key => if k = key then some v else dictGet rest key

/-- Property write `obj[key] = value`, for plain keys: an existing key keeps
its place in the enumeration order, a new key is appended. -/
def dictSet {β : Type} : List (String × β) → String → β → List (String × β)
  | [], key, value => [(key, value)]
  | (k, v) :: rest, key, value =>
    if k = key then (k, value) :: rest else (k, v) :: dictSet rest key value

/-- The statement `totals[key] = (totals[key] || 0) + amount` (lines 64, 85, 90-91). -/
def addTo (totals : List (String × JsNum)) (key : String) (amount : JsNum) :
    List (String × JsNum) :=
  dictSet totals key (JsNum.add (orZero (dictGet totals key)) amount)

/-- One insertion of a stable sort: x moves past y only when the comparator
says x belongs after y, that is when `cmp x y > 0`. -/
def insertSorted {α : Type} (cmp : α → α → JsNum) (x : α) : List α → List α
  | [] => [x]
  | y :: ys =>
    if JsNum.lt (JsNum.fin 0) (cmp x y) then y :: insertSorted cmp x ys else x :: y :: ys

/-- The JS builtin Array.prototype.sort with a comparator (stable). -/
def jsSort {α : Type} (cmp : α → α → JsNum) : List α → List α
  | [] => []
  | x :: xs => insertSorted cmp x (jsSort cmp xs)

/-- The JS builtin String.prototype.localeCompare, as code point order. On ISO
dates (digits and hyphens at fixed positions) locale collation agrees with it. -/
def localeCompare (a b : String) : JsNum :=
  if a.toList < b.toList then JsNum.fin (-1)
  else if b.toList < a.toList then JsNum.fin 1
  else JsNum.fin 0

/-! ## Data model -/

/-- The trip profile (state.trip). The field end_ is the JS field end. -/
structure TripProfile where
  traveler : String
  name : String
  start : String
  end_ : String
  budget : String
  currency : String
  deriving DecidableEq, Repr

/-- One expense record (an element of state.expenses). -/
structure Expense where
  id : String
  date : String
  amount : JsNum
  currency : String
  category : String
  payment : String
  note : String
  deriving DecidableEq, Repr

/-- The ledger document (the process-wide constant state). -/
structure State where
  trip : TripProfile
  expenses : List Expense
  deriving DecidableEq, Repr

/-- A JSON value, as produced by JSON.parse. -/
inductive Json where
  | null
  | bool (b : Bool)
  | num (n : JsNum)
  | str (s : String)
  | arr (items : List Json)
  | obj (fields : List (String × Json))

/-- Facilities of the browser that the code calls. -/
structure Host where
  /-- The conversion Number(s) of a string. -/
  number : String → JsNum
  /-- The method s.trim(). -/
  trim : String → String
  /-- The call localStorage.getItem(key): a thrown error, null (none) or a string. -/
  getItem : String → Except String (Option String)
  /-- The call localStorage.setItem(key, value): may throw. -/
  setItem : String → String → Except String Unit
  /-- The call JSON.parse(text): a thrown error or the parsed value. -/
  parse : String → Except String Json
  /-- The call JSON.stringify(state). -/
  stringify : State → String

/-- Line 1. -/
def STORAGE_KEY : String := "cal-trip-spend-v1"

/-- Lines 14-24. -/
def defaultState : State :=
  { trip :=
      { traveler := ""
        name := "比利時教育旅行"
        start := "2026-03-01"
        end_ := "2026-03-16"
        budget := ""
        currency := "EUR" }
    expenses := [] }

/-- The trip profile as a JSON value. -/
def TripProfile.toJson (t : TripProfile) : Json :=
  .obj [("traveler", .str t.traveler), ("name", .str t.name), ("start", .str t.start),
    ("end", .str t.end_), ("budget", .str t.budget), ("currency", .str t.currency)]

/-- An expense record as a JSON value. -/
def Expense.toJson (e : Expense) : Json :=
  .obj [("id", .str e.id), ("date", .str e.date), ("amount", .num e.amount),
    ("currency", .str e.currency), ("category", .str e.category),
    ("payment", .str e.payment), ("note", .str e.note)]

/-- The document as a JSON value. -/
def State.toJson (s : State) : Json :=
  .obj [("trip", s.trip.toJson), ("expenses", .arr (s.expenses.map Expense.toJson))]

/-- The document shape of the persistence format: an object with a trip field
and an expenses field holding an array. -/
def hasDocShape : Json → Bool
  | .obj fields =>
    (dictGet fields "trip").isSome &&
      (match dictGet fields "expenses" with
        | some (.arr _) => true
        | _ => false)
  | _ => false

/-! ## Persistence -/

/-- Lines 28-35. The value that becomes the process-wide state. -/
def loadState (host : Host) : Json :=
  match host.getItem STORAGE_KEY with
  | .error _ => defaultState.toJson
  | .ok none => defaultState.toJson
  | .ok (some raw) =>
    if raw = "" then defaultState.toJson
    else
      match host.parse raw with
      | .ok value => value
      | .error _ => defaultState.toJson

/-- Lines 37-39. No handler surrounds the write: an error thrown by setItem
leaves saveState. -/
def saveState (host : Host) (state : State) : Except String Unit :=
  host.setItem STORAGE_KEY (host.stringify state)

/-! ## Statistics and views -/

/-- The result of calcStats. The Set of dates is a duplicate-free list. -/
structure Stats where
  dates : List String
  totalsByCurrency : List (String × JsNum)
  deriving DecidableEq, Repr

/-- Lines 59-68. -/
def calcStats (state : State) : Stats :=
  { dates :=
      (state.expenses.map (fun item => item.date)).foldl
        (fun set date => if date ∈ set then set else set ++ [date]) []
    totalsByCurrency :=
      state.expenses.foldl (fun totals item => addTo totals item.currency item.amount) [] }

/-- One currency tile of the overview. -/
structure Tile where
  currency : String
  total : JsNum
  /-- Whether the title is the budget variant. -/
  budgetMatch : Bool
  /-- The amount of the remaining line, when that line is appended. -/
  remaining : Option JsNum
  /-- The category entries of the snippet, in display order. -/
  categories : List (String × JsNum)
  deriving DecidableEq, Repr

/-- What renderOverview shows: the empty notice or the grid of tiles. -/
inductive OverviewView where
  | empty
  | grid (tiles : List Tile)
  deriving DecidableEq, Repr

/-- Lines 84-92, first accumulator: totals by currency. -/
def overviewTotalsByCurrency (expenses : List Expense) : List (String × JsNum) :=
  expenses.foldl (fun totals item => addTo totals item.currency item.amount) []

/-- Lines 84-92, second accumulator: totals by category inside each currency. -/
def overviewTotalsByCategory (expenses : List Expense) :
    List (String × List (String × JsNum)) :=
  expenses.foldl
    (fun byCategory item =>
      let inner := (dictGet byCategory item.currency).getD []
      dictSet byCategory item.currency (addTo inner item.category item.amount))
    []

/-- Lines 105-137: the tile of one entry of totalsByCurrency. -/
def overviewTile (host : Host) (state : State)
    (totalsByCategory : List (String × List (String × JsNum)))
    (entry : String × JsNum) : Tile :=
  let currency := entry.1
  let total := entry.2
  let budgetMatch := decide (currency = state.trip.currency) && decide (state.trip.budget ≠ "")
  let categoryTotals := (dictGet totalsByCategory currency).getD []
  let entries := jsSort (fun a b => JsNum.sub b.2 a.2) categoryTotals
  { currency := currency
    total := total
    budgetMatch := budgetMatch
    remaining :=
      if budgetMatch then
        some (JsNum.max (JsNum.fin 0) (JsNum.sub (host.number state.trip.budget) total))
      else none
    categories := entries.take 3 }

/-- Lines 79-141. -/
def renderOverview (host : Host) (state : State) : OverviewView :=
  let totalsByCurrency := overviewTotalsByCurrency state.expenses
  let totalsByCategory := overviewTotalsByCategory state.expenses
  if totalsByCurrency.length = 0 then .empty
  else .grid (totalsByCurrency.map (overviewTile host state totalsByCategory))

/-- What renderTable shows: the empty notice or the header and the item rows. -/
inductive TableView where
  | empty
  | rows (items : List Expense)
  deriving DecidableEq, Repr

/-- Lines 143-192. The sort runs on a copy; the first component is the
document after the call. -/
def renderTable (state : State) : State × TableView :=
  if state.expenses.length = 0 then (state, .empty)
  else
    let sorted := jsSort (fun a b => localeCompare b.date a.date) state.expenses
    (state, .rows sorted)

/-! ## Event handlers -/

/-- An observable step of a handler after its mutation of the document. -/
inductive Effect where
  /-- The call saveState() returned: the blob was written. -/
  | saved (blob : String)
  /-- The expense form was reset and its date reseeded (lines 251-252). -/
  | formReset
  /-- The call renderAll() ran. -/
  | rendered
  /-- The CSV download was triggered with these rows (lines 274-280). -/
  | downloaded (rows : List (List (String ⊕ JsNum)))
  deriving DecidableEq, Repr

/-- The result of running one event handler: the process-wide document after
it, the error that left the handler (if any), and the steps it performed. -/
structure Run where
  state : State
  thrown : Option String
  effects : List Effect
  deriving DecidableEq, Repr

/-- The common tail `saveState(); ...rest` of the mutating handlers: when
saveState throws, the rest of the handler does not run and the error leaves the
handler; the mutation already made to the document stays. -/
def saveThen (host : Host) (state : State) (rest : List Effect) : Run :=
  match saveState host state with
  | .error e => { state := state, thrown := some e, effects := [] }
  | .ok _ => { state := state, thrown := none, effects := .saved (host.stringify state) :: rest }

/-- The values of the trip form fields. -/
structure TripFormValues where
  travelerName : String
  tripName : String
  tripStart : String
  tripEnd : String
  tripBudget : String
  tripCurrency : String
  deriving DecidableEq, Repr

/-- Lines 217-229: the submit handler of the trip form. -/
def tripSubmit (host : Host) (state : State) (form : TripFormValues) : Run :=
  let state1 : State :=
    { state with
      trip :=
        { traveler := host.trim form.travelerName
          name := host.trim form.tripName
          start := form.tripStart
          end_ := form.tripEnd
          budget := form.tripBudget
          currency := form.tripCurrency } }
  saveThen host state1 [.rendered]

/-- The entries of the FormData of the expense form. -/
structure ExpenseFormData where
  date : String
  amount : String
  currency : String
  category : String
  payment : String
  note : String
  deriving DecidableEq, Repr

/-- Lines 231-254: the submit handler of the expense form; uuid is the value
returned by crypto.randomUUID(). -/
def expenseSubmit (host : Host) (state : State) (formData : ExpenseFormData)
    (uuid : String) : Run :=
  let amount := host.number formData.amount
  if !amount.isFinite || JsNum.le amount (JsNum.fin 0) then
    { state := state, thrown := none, effects := [] }
  else
    let state1 : State :=
      { state with
        expenses :=
          state.expenses ++
            [{ id := uuid
               date := formData.date
               amount := amount
               currency := formData.currency
               category := formData.category
               payment := formData.payment
               note := host.trim formData.note }] }
    saveThen host state1 [.formReset, .rendered]

/-- Lines 183-187: the click handler of the delete button of the row of the
record with this id. -/
def deleteClick (host : Host) (state : State) (itemId : String) : Run :=
  let state1 : State :=
    { state with expenses := state.expenses.filter (fun expense => expense.id ≠ itemId) }
  saveThen host state1 [.rendered]

/-- Lines 283-291: the click handler of the clear button; confirmed is the
answer of the confirm dialog. -/
def clearAllClick (host : Host) (state : State) (confirmed : Bool) : Run :=
  if !confirmed then { state := state, thrown := none, effects := [] }
  else
    let state1 : State := { trip := defaultState.trip, expenses := [] }
    saveThen host state1 [.rendered]

/-- Line 261: the header row of the export. -/
def exportHeader : List (String ⊕ JsNum) :=
  [.inl "日期", .inl "金額", .inl "幣別", .inl "分類", .inl "付款方式", .inl "備註"]

/-- Lines 264-271: the row pushed for one record. -/
def exportRow (item : Expense) : List (String ⊕ JsNum) :=
  [.inl item.date, .inr item.amount, .inl item.currency, .inl item.category,
    .inl item.payment, .inl item.note]

/-- Lines 257-272: the rows built by the export handler (none when the handler
returns early on an empty collection). -/
def exportRows (state : State) : Option (List (List (String ⊕ JsNum))) :=
  if state.expenses.length = 0 then none
  else some (state.expenses.foldl (fun rows item => rows ++ [exportRow item]) [exportHeader])

/-- Lines 256-281: the click handler of the export button. -/
def exportCsvClick (state : State) : Run :=
  match exportRows state with
  | none => { state := state, thrown := none, effects := [] }
  | some rows => { state := state, thrown := none, effects := [.downloaded rows] }

/-- A user event together with the answers of the browser it consumes. -/
inductive Action where
  | tripSubmit (form : TripFormValues)
  | expenseSubmit (formData : ExpenseFormData) (uuid : String)
  | deleteClick (itemId : String)
  | clearAllClick (confirmed : Bool)
  | exportCsvClick
  deriving DecidableEq, Repr

/-- Dispatch of one event to its handler. -/
def handle (host : Host) (state : State) : Action → Run
  | .tripSubmit form => tripSubmit host state form
  | .expenseSubmit formData uuid => expenseSubmit host state formData uuid
  | .deleteClick itemId => deleteClick host state itemId
  | .clearAllClick confirmed => clearAllClick host state confirmed
  | .exportCsvClick => exportCsvClick state

/-- The document after a sequence of events, each processed fully before the
next (an error leaving one handler does not stop the event loop). -/
def runActions (host : Host) (state : State) : List Action → State
  | [] => state
  | a :: rest => runActions host (handle host state a).state rest

/-! ## Hosts and inputs used in the examples -/

/-- A host whose store accepts every write. Number is given on the literals
the examples use (0.1 and 0.2 are the doubles nearest to them) and trim on
strings without surrounding blanks. -/
def sampleHost : Host :=
  { number := fun s =>
      if s = "40" then .fin 40 else if s = "10" then .fin 10
      else if s = "30" then .fin 30 else if s = "90" then .fin 90
      else if s = "100" then .fin 100 else if s = "0" then .fin 0
      else if s = "-5" then .fin (-5) else if s = "Infinity" then .posInf
      else if s = "0.1" then .fin (3602879701896397 / 36028797018963968)
      else if s = "0.2" then .fin (3602879701896397 / 18014398509481984)
      else .nan
    trim := fun s => s
    getItem := fun _ => .ok none
    setItem := fun _ _ => .ok ()
    parse := fun _ => .error "SyntaxError"
    stringify := fun _ => "" }

/-- The sample host with a store that rejects every write. -/
def fullHost : Host :=
  { sampleHost with setItem := fun _ _ => .error "QuotaExceededError" }

/-- The sample host with a stored blob that parses to the number 42. -/
def numberBlobHost : Host :=
  { sampleHost with
    getItem := fun _ => .ok (some "42")
    parse := fun s => if s = "42" then .ok (.num (.fin 42)) else .error "SyntaxError" }

/-- A record for the examples. -/
def mkExpense (id date : String) (amount : ℚ) (currency category : String) : Expense :=
  { id := id, date := date, amount := .fin amount, currency := currency,
    category := category, payment := "Cash", note := "" }

/-- Form entries for the examples. -/
def mkForm (date amount currency category : String) : ExpenseFormData :=
  { date := date, amount := amount, currency := currency, category := category,
    payment := "Cash", note := "" }

/-- The records shown by a table view (none for the empty notice). -/
def TableView.items : TableView → List Expense
  | .empty => []
  | .rows items => items

/-- The tiles shown by an overview (none for the empty notice). -/
def OverviewView.tiles : OverviewView → List Tile
  | .empty => []
  | .grid tiles => tiles

/-- The empty document after adding 40 EUR and then 10 EUR on the same date. -/
def twoEuroState : State :=
  (expenseSubmit sampleHost
    (expenseSubmit sampleHost defaultState
      (mkForm "2026-03-02" "40" "EUR" "Food") "id-1").state
    (mkForm "2026-03-02" "10" "EUR" "Food") "id-2").state

/-- A document holding one record whose identifier is id-1. -/
def oneRecordState : State :=
  { defaultState with expenses := [mkExpense "id-1" "2026-03-01" 40 "EUR" "Food"] }

/-- A document whose records were entered in ascending date order. -/
def ascendingState : State :=
  { defaultState with
    expenses :=
      [mkExpense "id-1" "2026-03-01" 40 "EUR" "Food",
       mkExpense "id-2" "2026-03-02" 10 "EUR" "Food"] }

/-- The default document after setting the budget 100 EUR and adding 30 EUR. -/
def budgetState30 : State :=
  (expenseSubmit sampleHost
    (tripSubmit sampleHost defaultState
      { travelerName := "", tripName := "Gent", tripStart := "2026-03-01",
        tripEnd := "2026-03-16", tripBudget := "100", tripCurrency := "EUR" }).state
    (mkForm "2026-03-02" "30" "EUR" "Food") "id-1").state

/-- The document budgetState30 after adding a further 90 EUR. -/
def budgetState120 : State :=
  (expenseSubmit sampleHost budgetState30 (mkForm "2026-03-03" "90" "EUR" "Hotel") "id-2").state

/-- The records of one currency, in stored order. -/
def currencyGroup (state : State) (currency : String) : List Expense :=
  state.expenses.filter (fun r => decide (r.currency = currency))

/-- The JS sum, in stored order, of the amounts of the records of a group in
one category. -/
def categoryTotal (group : List Expense) (category : String) : JsNum :=
  jsSum ((group.filter (fun r => decide (r.category = category))).map (fun r => r.amount))

/-- The default document after adding 0.1 EUR and then 0.2 EUR, both Food. -/
def pointState : State :=
  (expenseSubmit sampleHost
    (expenseSubmit sampleHost defaultState
      (mkForm "2026-03-02" "0.1" "EUR" "Food") "id-1").state
    (mkForm "2026-03-02" "0.2" "EUR" "Food") "id-2").state

/-- A document with two Food records of 0.1 and 0.2 EUR and a Hotel record. -/
def pointCategoryState : State :=
  (expenseSubmit sampleHost pointState (mkForm "2026-03-03" "90" "EUR" "Hotel") "id-3").state

/-- A document with five EUR records in four categories and one USD record. -/
def fourCategoryState : State :=
  { defaultState with
    expenses :=
      [mkExpense "id-1" "2026-03-01" 30 "EUR" "Food",
       mkExpense "id-2" "2026-03-01" 90 "EUR" "Hotel",
       mkExpense "id-3" "2026-03-02" 20 "EUR" "Transit",
       mkExpense "id-4" "2026-03-02" 5 "EUR" "Gift",
       mkExpense "id-5" "2026-03-03" 15 "EUR" "Food",
       mkExpense "id-6" "2026-03-03" 200 "USD" "Gift"] }

/-- The EUR tile of fourCategoryState. -/
def fourCategoryEurTile : Tile :=
  { currency := "EUR", total := JsNum.fin 160, budgetMatch := false, remaining := none,
    categories := [("Hotel", JsNum.fin 90), ("Food", JsNum.fin 45), ("Transit", JsNum.fin 20)] }

/-- A sequence of events: an accepted submission, a rejected one, a removal
of an unknown identifier and a profile update. -/
def sampleActions : List Action :=
  [.expenseSubmit (mkForm "2026-03-02" "40" "EUR" "Food") "id-1",
   .expenseSubmit (mkForm "2026-03-02" "-5" "EUR" "Food") "id-2",
   .deleteClick "id-9",
   .tripSubmit
     { travelerName := "", tripName := "Gent", tripStart := "2026-03-01",
       tripEnd := "2026-03-16", tripBudget := "100", tripCurrency := "EUR" }]

/-- The sample host with a store whose read throws. -/
def lockedHost : Host :=
  { sampleHost with getItem := fun _ => .error "SecurityError" }

/-- The sample host with the empty string as the stored blob. -/
def emptyBlobHost : Host :=
  { sampleHost with getItem := fun _ => .ok (some "") }

/-- The sample host with a stored blob that does not parse. -/
def corruptBlobHost : Host :=
  { sampleHost with getItem := fun _ => .ok (some "not json") }

/-! ## Lemmas on dictionaries -/

theorem dictGet_dictSet {β : Type} (d : List (String × β)) (k : String) (v : β) (key : String) :
    dictGet (dictSet d k v) key = if k = key then some v else dictGet d key := by
  induction d with
  | nil => simp [dictSet, dictGet]
  | cons p rest ih =>
    obtain ⟨k0, v0⟩ := p
    by_cases h0 : k0 = k
    · subst h0
      by_cases h1 : k0 = key <;> simp [dictSet, dictGet, h1]
    · by_cases h1 : k0 = key
      · subst h1
        simp [dictSet, dictGet, h0, Ne.symm h0]
      · simp [dictSet, dictGet, h0, h1, ih]

theorem keys_dictSet {β : Type} (d : List (String × β)) (k : String) (v : β) :
    (dictSet d k v).map Prod.fst =
      if k ∈ d.map Prod.fst then d.map Prod.fst else d.map Prod.fst ++ [k] := by
  induction d with
  | nil => simp [dictSet]
  | cons p rest ih =>
    obtain ⟨k0, v0⟩ := p
    by_cases h0 : k0 = k
    · subst h0
      simp [dictSet]
    · have h0s : ¬ k = k0 := Ne.symm h0
      simp only [dictSet, if_neg h0, List.map_cons, ih, List.mem_cons, h0s, false_or]
      split <;> simp

theorem dictGet_eq_none_iff {β : Type} (d : List (String × β)) (key : String) :
    dictGet d key = none ↔ key ∉ d.map Prod.fst := by
  induction d with
  | nil => simp [dictGet]
  | cons p rest ih =>
    obtain ⟨k0, v0⟩ := p
    by_cases h0 : k0 = key
    · simp [dictGet, h0]
    · simp [dictGet, h0, ih, Ne.symm h0]

theorem dictGet_of_mem {β : Type} (d : List (String × β)) (hd : (d.map Prod.fst).Nodup)
    (k : String) (v : β) (hmem : (k, v) ∈ d) : dictGet d k = some v := by
  induction d with
  | nil => simp at hmem
  | cons p rest ih =>
    obtain ⟨k0, v0⟩ := p
    simp only [List.map_cons, List.nodup_cons] at hd
    rcases List.mem_cons.1 hmem with h | h
    · cases h
      simp [dictGet]
    · have hne : k0 ≠ k := by
        rintro rfl
        exact hd.1 (List.mem_map.2 ⟨(k0, v), h, rfl⟩)
      simp [dictGet, hne, ih hd.2 h]

theorem mem_of_dictGet {β : Type} (d : List (String × β)) (k : String) (v : β)
    (h : dictGet d k = some v) : (k, v) ∈ d := by
  induction d with
  | nil => simp [dictGet] at h
  | cons p rest ih =>
    obtain ⟨k0, v0⟩ := p
    by_cases h0 : k0 = k
    · subst h0
      simp [dictGet] at h
      simp [h]
    · simp [dictGet, h0] at h
      exact List.mem_cons_of_mem _ (ih h)

theorem isFinite_iff (n : JsNum) : n.isFinite = true ↔ n = JsNum.fin n.toRat := by
  cases n <;> simp [JsNum.isFinite, JsNum.toRat]

/-! ## Lemmas on rounding -/

theorem le_roundHalfEven (N D : Nat) : N / D ≤ JsNum.roundHalfEven N D := by
  unfold JsNum.roundHalfEven
  split_ifs <;> omega

theorem bitLog_fold_inv (n : Nat) (bs : List Nat) (p : Nat × Nat)
    (h1 : 1 ≤ p.1) (h2 : p.1 * 2 ^ p.2 ≤ n) :
    (bs.foldl (fun (p : Nat × Nat) b => if 2 ^ b ≤ p.1 then (p.1 / 2 ^ b, p.2 + b) else p) p).1
        * 2 ^ (bs.foldl
          (fun (p : Nat × Nat) b => if 2 ^ b ≤ p.1 then (p.1 / 2 ^ b, p.2 + b) else p) p).2 ≤ n ∧
      1 ≤ (bs.foldl
        (fun (p : Nat × Nat) b => if 2 ^ b ≤ p.1 then (p.1 / 2 ^ b, p.2 + b) else p) p).1 := by
  induction bs generalizing p with
  | nil => exact ⟨h2, h1⟩
  | cons b bs ih =>
    rw [List.foldl_cons]
    by_cases hb : 2 ^ b ≤ p.1
    · rw [if_pos hb]
      refine ih _ ?_ ?_
      · exact Nat.div_pos hb (Nat.two_pow_pos b)
      · calc p.1 / 2 ^ b * 2 ^ (p.2 + b) = (p.1 / 2 ^ b * 2 ^ b) * 2 ^ p.2 := by
              rw [pow_add]; ring
          _ ≤ p.1 * 2 ^ p.2 := Nat.mul_le_mul_right _ (Nat.div_mul_le_self _ _)
          _ ≤ n := h2
    · rw [if_neg hb]
      exact ih p h1 h2

theorem two_pow_bitLog_le (n : Nat) (hn : 1 ≤ n) : 2 ^ JsNum.bitLog n ≤ n := by
  have h := bitLog_fold_inv n [2048, 1024, 512, 256, 128, 64, 32, 16, 8, 4, 2, 1] (n, 0) hn
    (by simp)
  unfold JsNum.bitLog
  calc 2 ^ _ ≤ _ * 2 ^ _ := Nat.le_mul_of_pos_left _ h.2
    _ ≤ n := h.1

theorem two_pow_dropBits_le (n : Nat) (hn : 1 ≤ n) : 2 ^ JsNum.dropBits n ≤ n := by
  unfold JsNum.dropBits
  split
  · simpa using hn
  · exact le_trans (Nat.pow_le_pow_right (by norm_num) (Nat.sub_le _ _)) (two_pow_bitLog_le n hn)

theorem unitsInOne_pos : 0 < JsNum.unitsInOne := by
  unfold JsNum.unitsInOne
  exact Nat.pos_of_ne_zero (pow_ne_zero _ (by decide))

theorem overflowUnits_pos : 0 < JsNum.overflowUnits := by
  unfold JsNum.overflowUnits
  exact Nat.pos_of_ne_zero (pow_ne_zero _ (by decide))

theorem roundDouble_ne_nan (q : ℚ) : JsNum.roundDouble q ≠ JsNum.nan := by
  unfold JsNum.roundDouble
  simp only
  split_ifs <;> simp

/-- A finite result of rounding is a whole number of units. -/
theorem roundDouble_grid (q r : ℚ) (h : JsNum.roundDouble q = JsNum.fin r) :
    ∃ z : ℤ, r = z / (JsNum.unitsInOne : ℚ) := by
  unfold JsNum.roundDouble at h
  simp only at h
  split_ifs at h with h1 h2 h3
  · cases h
    exact ⟨-((JsNum.roundHalfEven (q.num.natAbs * JsNum.unitsInOne)
      (q.den * 2 ^ JsNum.dropBits (q.num.natAbs * JsNum.unitsInOne / q.den)) *
        2 ^ JsNum.dropBits (q.num.natAbs * JsNum.unitsInOne / q.den) : ℕ) : ℤ),
      by push_cast; ring⟩
  · cases h
    exact ⟨((JsNum.roundHalfEven (q.num.natAbs * JsNum.unitsInOne)
      (q.den * 2 ^ JsNum.dropBits (q.num.natAbs * JsNum.unitsInOne / q.den)) *
        2 ^ JsNum.dropBits (q.num.natAbs * JsNum.unitsInOne / q.den) : ℕ) : ℤ),
      by push_cast; ring⟩

theorem roundDouble_nonpos (q : ℚ) (hq : q ≤ 0) :
    JsNum.lt (JsNum.fin 0) (JsNum.roundDouble q) = false := by
  have hU : (0 : ℚ) < (JsNum.unitsInOne : ℚ) := by exact_mod_cast unitsInOne_pos
  unfold JsNum.roundDouble
  simp only
  by_cases hneg : q.num < 0
  · simp only [if_pos hneg]
    split_ifs
    · rfl
    · simp only [JsNum.lt, decide_eq_false_iff_not, not_lt]
      apply div_nonpos_of_nonpos_of_nonneg _ hU.le
      simp only [Left.neg_nonpos_iff]
      exact_mod_cast Nat.zero_le _
  · have hnum : q.num = 0 := le_antisymm (Rat.num_nonpos.2 hq) (not_lt.1 hneg)
    have hden : 0 < q.den := q.den_pos
    have hm : JsNum.roundHalfEven (q.num.natAbs * JsNum.unitsInOne)
        (q.den * 2 ^ JsNum.dropBits (q.num.natAbs * JsNum.unitsInOne / q.den)) = 0 := by
      simp [hnum, JsNum.roundHalfEven, JsNum.dropBits, hden]
    simp [hm, hneg, not_le.2 overflowUnits_pos, JsNum.lt]

/-- Rounding a positive whole number of units never gives zero or less: the
subnormal doubles keep every difference of two doubles away from zero. -/
theorem roundDouble_pos (q : ℚ) (hq : 0 < q)
    (hgrid : ∃ z : ℤ, q = z / (JsNum.unitsInOne : ℚ)) :
    JsNum.lt (JsNum.fin 0) (JsNum.roundDouble q) = true := by
  have hU : (0 : ℚ) < (JsNum.unitsInOne : ℚ) := by exact_mod_cast unitsInOne_pos
  have hnum : 0 < q.num := Rat.num_pos.2 hq
  have hneg : ¬ q.num < 0 := not_lt.2 hnum.le
  have hden : q.den ≤ JsNum.unitsInOne := by
    obtain ⟨z, hz⟩ := hgrid
    have hd := Rat.den_dvd z (JsNum.unitsInOne : ℤ)
    rw [Rat.divInt_eq_div] at hd
    have hq2 : q = (z : ℚ) / ((JsNum.unitsInOne : ℤ) : ℚ) := by rw [hz]; norm_cast
    rw [← hq2] at hd
    exact Nat.le_of_dvd unitsInOne_pos (Int.natCast_dvd_natCast.1 hd)
  have hN : q.den ≤ q.num.natAbs * JsNum.unitsInOne := by
    have h1 : 1 ≤ q.num.natAbs := Int.natAbs_pos.2 (ne_of_gt hnum)
    calc q.den ≤ JsNum.unitsInOne := hden
      _ = 1 * JsNum.unitsInOne := (one_mul _).symm
      _ ≤ q.num.natAbs * JsNum.unitsInOne := Nat.mul_le_mul_right _ h1
  have hn0 : 1 ≤ q.num.natAbs * JsNum.unitsInOne / q.den := Nat.div_pos hN q.den_pos
  have hk := two_pow_dropBits_le _ hn0
  have hD : q.den * 2 ^ JsNum.dropBits (q.num.natAbs * JsNum.unitsInOne / q.den) ≤
      q.num.natAbs * JsNum.unitsInOne :=
    le_trans (Nat.mul_le_mul_left _ hk) (Nat.mul_div_le _ _)
  have hfloor : 1 ≤ q.num.natAbs * JsNum.unitsInOne /
      (q.den * 2 ^ JsNum.dropBits (q.num.natAbs * JsNum.unitsInOne / q.den)) :=
    Nat.div_pos hD (Nat.mul_pos q.den_pos (Nat.two_pow_pos _))
  have hm : 0 < JsNum.roundHalfEven (q.num.natAbs * JsNum.unitsInOne)
      (q.den * 2 ^ JsNum.dropBits (q.num.natAbs * JsNum.unitsInOne / q.den)) *
        2 ^ JsNum.dropBits (q.num.natAbs * JsNum.unitsInOne / q.den) :=
    Nat.mul_pos (lt_of_lt_of_le hfloor (le_roundHalfEven _ _)) (Nat.two_pow_pos _)
  unfold JsNum.roundDouble
  simp only [if_neg hneg]
  split_ifs
  · rfl
  · simp only [JsNum.lt, decide_eq_true_eq]
    apply div_pos _ hU
    exact_mod_cast hm

theorem onGrid_zero : JsNum.OnGrid (JsNum.fin 0) :=
  ⟨by simp, fun q hq => ⟨0, by cases hq; simp⟩⟩

/-- Adding a finite number to a number other than NaN gives a number on the
grid (in particular not NaN). -/
theorem add_onGrid (v a : JsNum) (hv : v ≠ JsNum.nan) (ha : a.isFinite = true) :
    JsNum.OnGrid (JsNum.add v a) := by
  rw [(isFinite_iff a).1 ha]
  cases v with
  | fin x =>
    exact ⟨roundDouble_ne_nan _, fun q hq => roundDouble_grid _ q hq⟩
  | nan => exact absurd rfl hv
  | posInf => exact ⟨by simp [JsNum.add], fun q hq => by simp [JsNum.add] at hq⟩
  | negInf => exact ⟨by simp [JsNum.add], fun q hq => by simp [JsNum.add] at hq⟩

theorem jsSum_append_singleton (xs : List JsNum) (a : JsNum) :
    jsSum (xs ++ [a]) = JsNum.add (jsSum xs) a := by
  simp [jsSum, List.foldl_append]

theorem jsSum_onGrid (xs : List JsNum) (hfin : ∀ v ∈ xs, v.isFinite = true) :
    JsNum.OnGrid (jsSum xs) := by
  induction xs using List.reverseRecOn with
  | nil => exact onGrid_zero
  | append_singleton xs a ih =>
    rw [jsSum_append_singleton]
    exact add_onGrid _ _ (ih (fun v hv => hfin v (by simp [hv]))).1 (hfin a (by simp))

theorem orZero_some (v : JsNum) (hv : v ≠ JsNum.nan) : orZero (some v) = v := by
  cases v with
  | fin q => by_cases hq : q = 0 <;> simp [orZero, JsNum.truthy, hq]
  | nan => exact absurd rfl hv
  | posInf => rfl
  | negInf => rfl

theorem le_trans_js (a b c : JsNum) (hab : JsNum.le a b = true) (hbc : JsNum.le b c = true) :
    JsNum.le a c = true := by
  cases a <;> cases b <;> cases c <;> simp_all [JsNum.le]
  exact le_trans hab hbc

/-- The comparator `(a, b) => b - a` on two numbers on the grid: when it is
positive a is at most b, otherwise b is at most a. -/
theorem sub_comparator (x y : JsNum) (hx : x.OnGrid) (hy : y.OnGrid) :
    if JsNum.lt (JsNum.fin 0) (JsNum.sub y x) = true then JsNum.le x y = true
    else JsNum.le y x = true := by
  cases x with
  | nan => exact absurd rfl hx.1
  | fin a =>
    cases y with
    | nan => exact absurd rfl hy.1
    | fin b =>
      obtain ⟨za, hza⟩ := hx.2 a rfl
      obtain ⟨zb, hzb⟩ := hy.2 b rfl
      have hsub : JsNum.sub (JsNum.fin b) (JsNum.fin a) = JsNum.roundDouble (b + -a) := rfl
      rw [hsub]
      by_cases hab : a < b
      · have hpos := roundDouble_pos (b + -a) (by linarith)
          ⟨zb - za, by rw [hza, hzb]; push_cast; ring⟩
        rw [if_pos hpos]
        simp [JsNum.le, hab.le]
      · have hnon := roundDouble_nonpos (b + -a) (by linarith)
        rw [if_neg (by simp [hnon])]
        simp [JsNum.le, not_lt.1 hab]
    | posInf => simp [JsNum.sub, JsNum.neg, JsNum.add, JsNum.lt, JsNum.le]
    | negInf => simp [JsNum.sub, JsNum.neg, JsNum.add, JsNum.lt, JsNum.le]
  | posInf =>
    cases y with
    | nan => exact absurd rfl hy.1
    | fin b => simp [JsNum.sub, JsNum.neg, JsNum.add, JsNum.lt, JsNum.le]
    | posInf => simp [JsNum.sub, JsNum.neg, JsNum.add, JsNum.lt, JsNum.le]
    | negInf => simp [JsNum.sub, JsNum.neg, JsNum.add, JsNum.lt, JsNum.le]
  | negInf =>
    cases y with
    | nan => exact absurd rfl hy.1
    | fin b => simp [JsNum.sub, JsNum.neg, JsNum.add, JsNum.lt, JsNum.le]
    | posInf => simp [JsNum.sub, JsNum.neg, JsNum.add, JsNum.lt, JsNum.le]
    | negInf => simp [JsNum.sub, JsNum.neg, JsNum.add, JsNum.lt, JsNum.le]

/-! ## Lemmas on the accumulation -/

/-- The accumulation `totals[key(item)] = (totals[key(item)] || 0) + item.amount`
over records with finite amounts: each key holds the JS sum of the amounts of
its records, in stored order. -/
theorem foldl_addTo_get (key : Expense → String) (xs : List Expense)
    (hfin : ∀ r ∈ xs, r.amount.isFinite = true) (k : String) :
    dictGet (xs.foldl (fun totals item => addTo totals (key item) item.amount) []) k =
      if xs.filter (fun r => decide (key r = k)) = [] then none
      else some (jsSum
        ((xs.filter (fun r => decide (key r = k))).map (fun r => r.amount))) := by
  induction xs using List.reverseRecOn with
  | nil => simp [dictGet]
  | append_singleton xs x ih =>
    have ih1 := ih (fun r hr => hfin r (by simp [hr]))
    rw [List.foldl_append, List.foldl_cons, List.foldl_nil, addTo, dictGet_dictSet]
    by_cases hk : key x = k
    · subst hk
      rw [if_pos rfl, ih1, List.filter_append]
      have hfx : [x].filter (fun r => decide (key r = key x)) = [x] := by simp
      rw [hfx]
      by_cases hG : xs.filter (fun r => decide (key r = key x)) = []
      · rw [if_pos hG, hG]
        simp [orZero, jsSum]
      · have hsum : JsNum.OnGrid (jsSum
            ((xs.filter (fun r => decide (key r = key x))).map (fun r => r.amount))) := by
          refine jsSum_onGrid _ (fun v hv => ?_)
          obtain ⟨r, hr, rfl⟩ := List.mem_map.1 hv
          exact hfin r (by simp [(List.mem_filter.1 hr).1])
        rw [if_neg hG, orZero_some _ hsum.1, List.map_append, List.map_cons, List.map_nil,
          jsSum_append_singleton]
        simp
    · rw [if_neg hk, ih1, List.filter_append]
      have hfx : [x].filter (fun r => decide (key r = k)) = [] := by simp [hk]
      rw [hfx, List.append_nil]

theorem foldl_addTo_keys (key : Expense → String) (xs : List Expense) :
    ((xs.foldl (fun totals item => addTo totals (key item) item.amount) []).map Prod.fst).Nodup ∧
      ∀ k, k ∈ (xs.foldl (fun totals item => addTo totals (key item) item.amount) []).map Prod.fst
        ↔ k ∈ xs.map key := by
  induction xs using List.reverseRecOn with
  | nil => simp
  | append_singleton xs x ih =>
    rw [List.foldl_append, List.foldl_cons, List.foldl_nil, addTo, keys_dictSet]
    split
    next hmem =>
      refine ⟨ih.1, fun k => ?_⟩
      rw [ih.2 k]
      simp only [List.map_append, List.mem_append, List.map_cons, List.map_nil,
        List.mem_singleton]
      constructor
      · exact fun h => Or.inl h
      · rintro (h | h)
        · exact h
        · subst h
          exact (ih.2 _).1 hmem
    next hmem =>
      refine ⟨?_, fun k => ?_⟩
      · rw [List.nodup_append]
        refine ⟨ih.1, List.nodup_singleton _, ?_⟩
        intro a ha hb
        simp only [List.mem_singleton] at hb
        subst hb
        exact hmem ha
      · simp only [List.mem_append, List.mem_singleton, List.map_append, List.map_cons,
          List.map_nil, ih.2 k]

/-! ## C1: totals by currency -/

/-- C1, as stated, fails: the totals are sums of doubles, which round. After
0.1 EUR and then 0.2 EUR are added to the default document (the stored amounts
are the doubles nearest to 0.1 and 0.2), the EUR total is the double
0.30000000000000004, which is not the exact sum of the two stored amounts. -/
theorem calcStats_exact_sum_counterexample :
    pointState.expenses.map (fun r => (r.currency, r.amount)) =
      [("EUR", JsNum.fin (3602879701896397 / 36028797018963968)),
       ("EUR", JsNum.fin (3602879701896397 / 18014398509481984))] ∧
    dictGet (calcStats pointState).totalsByCurrency "EUR" =
      some (JsNum.fin (1351079888211149 / 4503599627370496)) ∧
    JsNum.fin (1351079888211149 / 4503599627370496) ≠
      JsNum.fin (((pointState.expenses.filter (fun r => decide (r.currency = "EUR"))).map
        (fun r => r.amount.toRat)).sum) := by
  decide!

/-- C1, amended. For a collection whose amounts are finite numbers and whose
currency codes are plain dictionary keys, the totalsByCurrency of calcStats
has one entry per currency that occurs, holding the JS sum of the amounts of
the records of that currency (added in stored order, starting from 0, each
addition rounding to the nearest double), and no entry for a currency that no
record has. -/
theorem calcStats_totalsByCurrency_sum (state : State) (c : String)
    (hfin : ∀ r ∈ state.expenses, r.amount.isFinite = true)
    (_hkeys : ∀ r ∈ state.expenses, plainKey r.currency = true) :
    ((calcStats state).totalsByCurrency.map Prod.fst).Nodup ∧
    ((∀ r ∈ state.expenses, r.currency ≠ c) →
      dictGet (calcStats state).totalsByCurrency c = none) ∧
    ((∃ r ∈ state.expenses, r.currency = c) →
      dictGet (calcStats state).totalsByCurrency c =
        some (jsSum ((currencyGroup state c).map (fun r => r.amount)))) := by
  have hget := foldl_addTo_get (fun r => r.currency) state.expenses hfin c
  refine ⟨(foldl_addTo_keys (fun r => r.currency) state.expenses).1, ?_, ?_⟩
  · intro hno
    have hnil : state.expenses.filter (fun r => decide (r.currency = c)) = [] := by
      rw [List.filter_eq_nil_iff]
      intro r hr
      simpa using hno r hr
    simpa [calcStats, hnil] using hget
  · rintro ⟨r, hr, hrc⟩
    have hne : state.expenses.filter (fun r => decide (r.currency = c)) ≠ [] := by
      intro hnil
      rw [List.filter_eq_nil_iff] at hnil
      exact hnil r hr (by simpa using hrc)
    simpa [calcStats, currencyGroup, hne] using hget

/-- C1, amended, on the scenario of the claim: 40 EUR then 10 EUR added to the
empty document give the EUR total 50, and there is no entry for USD. -/
theorem calcStats_totalsByCurrency_sum_witness :
    (∀ r ∈ twoEuroState.expenses, r.amount.isFinite = true) ∧
    (∀ r ∈ twoEuroState.expenses, plainKey r.currency = true) ∧
    (∃ r ∈ twoEuroState.expenses, r.currency = "EUR") ∧
    dictGet (calcStats twoEuroState).totalsByCurrency "EUR" = some (JsNum.fin 50) ∧
    (∀ r ∈ twoEuroState.expenses, r.currency ≠ "USD") ∧
    dictGet (calcStats twoEuroState).totalsByCurrency "USD" = none :=
  have hfin : ∀ r ∈ twoEuroState.expenses, r.amount.isFinite = true := by decide!
  have hkeys : ∀ r ∈ twoEuroState.expenses, plainKey r.currency = true := by decide!
  ⟨hfin, hkeys, by decide!,
    ((calcStats_totalsByCurrency_sum twoEuroState "EUR" hfin hkeys).2.2 (by decide!)).trans
      (by decide!),
    by decide!,
    (calcStats_totalsByCurrency_sum twoEuroState "USD" hfin hkeys).2.1 (by decide!)⟩

/-! ## Lemmas on the handlers -/

theorem saveThen_state (host : Host) (state : State) (rest : List Effect) :
    (saveThen host state rest).state = state := by
  unfold saveThen
  cases saveState host state <;> rfl

/-- The document after an accepted submission: the new record is appended. -/
theorem expenseSubmit_accepts (host : Host) (state : State) (formData : ExpenseFormData)
    (uuid : String) (q : ℚ) (hq : host.number formData.amount = JsNum.fin q) (hpos : 0 < q) :
    (expenseSubmit host state formData uuid).state =
      { state with
        expenses :=
          state.expenses ++
            [{ id := uuid
               date := formData.date
               amount := JsNum.fin q
               currency := formData.currency
               category := formData.category
               payment := formData.payment
               note := host.trim formData.note }] } := by
  unfold expenseSubmit
  simp [hq, JsNum.isFinite, JsNum.le, not_le.2 hpos, saveThen_state]

theorem deleteClick_state (host : Host) (state : State) (itemId : String) :
    (deleteClick host state itemId).state =
      { state with expenses := state.expenses.filter (fun expense => expense.id ≠ itemId) } := by
  unfold deleteClick
  rw [saveThen_state]

/-! ## C2: rejected submissions -/

theorem expenseSubmit_not_positive (host : Host) (state : State)
    (formData : ExpenseFormData) (uuid : String)
    (hbad : ∀ q, host.number formData.amount = JsNum.fin q → q ≤ 0) :
    expenseSubmit host state formData uuid =
      { state := state, thrown := none, effects := [] } := by
  unfold expenseSubmit
  cases hn : host.number formData.amount with
  | fin q => simp [JsNum.isFinite, JsNum.le, hbad q hn]
  | nan => simp [JsNum.isFinite]
  | posInf => simp [JsNum.isFinite]
  | negInf => simp [JsNum.isFinite]

/-- C2. When the amount of the submission is not a finite number greater than
zero (it is NaN, an infinity, or a finite number at most zero), the submit
handler returns early: the document (profile and collection) is the one before
the call, no error is raised, and nothing is saved, reset or rendered. This
outcome signals the rejection: no submission with a finite amount above zero
ends in it. -/
theorem expenseSubmit_rejects (host : Host) (state : State) (formData : ExpenseFormData)
    (uuid : String)
    (hbad : ∀ q, host.number formData.amount = JsNum.fin q → q ≤ 0) :
    expenseSubmit host state formData uuid = { state := state, thrown := none, effects := [] } ∧
    (expenseSubmit host state formData uuid).state.expenses = state.expenses ∧
    (expenseSubmit host state formData uuid).state.trip = state.trip ∧
    (∀ (valid : ExpenseFormData) (uuid1 : String) (q : ℚ),
      host.number valid.amount = JsNum.fin q → 0 < q →
      expenseSubmit host state valid uuid1 ≠ expenseSubmit host state formData uuid) := by
  have hrun := expenseSubmit_not_positive host state formData uuid hbad
  refine ⟨hrun, by rw [hrun], by rw [hrun], ?_⟩
  intro valid uuid1 q hq hpos heq
  have hlen := congrArg (fun run => run.state.expenses.length) heq
  simp only [expenseSubmit_accepts host state valid uuid1 q hq hpos, hrun,
    List.length_append, List.length_singleton] at hlen
  omega

/-- C2 at the amount -5 on a document holding one record, against an accepted
submission of the amount 10. -/
theorem expenseSubmit_rejects_witness :
    (∀ q, sampleHost.number (mkForm "2026-03-02" "-5" "EUR" "Food").amount = JsNum.fin q → q ≤ 0) ∧
    expenseSubmit sampleHost oneRecordState (mkForm "2026-03-02" "-5" "EUR" "Food") "id-2" =
      { state := oneRecordState, thrown := none, effects := [] } ∧
    sampleHost.number (mkForm "2026-03-02" "10" "EUR" "Food").amount = JsNum.fin 10 ∧
    expenseSubmit sampleHost oneRecordState (mkForm "2026-03-02" "10" "EUR" "Food") "id-2" ≠
      expenseSubmit sampleHost oneRecordState (mkForm "2026-03-02" "-5" "EUR" "Food") "id-2" :=
  have h : ∀ q, sampleHost.number (mkForm "2026-03-02" "-5" "EUR" "Food").amount = JsNum.fin q →
      q ≤ 0 := by
    intro q hq
    have h5 : sampleHost.number (mkForm "2026-03-02" "-5" "EUR" "Food").amount = JsNum.fin (-5) := by
      with_unfolding_all decide
    rw [h5] at hq
    cases hq
    norm_num
  have h10 : sampleHost.number (mkForm "2026-03-02" "10" "EUR" "Food").amount = JsNum.fin 10 := by
    with_unfolding_all decide
  ⟨h, (expenseSubmit_rejects sampleHost oneRecordState _ "id-2" h).1, h10,
    (expenseSubmit_rejects sampleHost oneRecordState _ "id-2" h).2.2.2
      (mkForm "2026-03-02" "10" "EUR" "Food") "id-2" 10 h10 (by norm_num)⟩

/-! ## C3: add, then remove the added record -/

/-- C3, as stated, fails when the generator returns an identifier that a stored
record already carries: removing by that identifier also removes the stored
record. Here the document holds one record with identifier id-1, a valid
submission (amount 10) receives the identifier id-1, and after the removal the
collection is empty. -/
theorem add_remove_collision_counterexample :
    sampleHost.number (mkForm "2026-03-02" "10" "EUR" "Food").amount = JsNum.fin 10 ∧
    (deleteClick sampleHost
      (expenseSubmit sampleHost oneRecordState (mkForm "2026-03-02" "10" "EUR" "Food")
        "id-1").state "id-1").state.expenses = [] ∧
    ¬ (∀ r, r ∈ (deleteClick sampleHost
          (expenseSubmit sampleHost oneRecordState (mkForm "2026-03-02" "10" "EUR" "Food")
            "id-1").state "id-1").state.expenses ↔ r ∈ oneRecordState.expenses) := by
  have hempty : (deleteClick sampleHost
      (expenseSubmit sampleHost oneRecordState (mkForm "2026-03-02" "10" "EUR" "Food")
        "id-1").state "id-1").state.expenses = [] := by
    with_unfolding_all decide
  refine ⟨by with_unfolding_all decide, hempty, ?_⟩
  intro hall
  have hmem := (hall (mkExpense "id-1" "2026-03-01" 40 "EUR" "Food")).2
    (by simp [oneRecordState])
  rw [hempty] at hmem
  simp at hmem

/-- C3, amended. For a valid submission (finite amount greater than zero) that
receives an identifier carried by no stored record, the new record carries that
identifier, and adding it and then removing by that identifier gives back the
collection before the add (the same records in the same order, hence the same
set) and the same profile. -/
theorem add_then_remove_fresh (host : Host) (state : State) (formData : ExpenseFormData)
    (uuid : String) (q : ℚ) (hq : host.number formData.amount = JsNum.fin q) (hpos : 0 < q)
    (hfresh : ∀ r ∈ state.expenses, r.id ≠ uuid) :
    (∃ r, (expenseSubmit host state formData uuid).state.expenses = state.expenses ++ [r] ∧
      r.id = uuid) ∧
    (deleteClick host (expenseSubmit host state formData uuid).state uuid).state = state ∧
    (∀ r, r ∈ (deleteClick host (expenseSubmit host state formData uuid).state
        uuid).state.expenses ↔ r ∈ state.expenses) := by
  have hadd := expenseSubmit_accepts host state formData uuid q hq hpos
  have hback : (deleteClick host (expenseSubmit host state formData uuid).state uuid).state =
      state := by
    rw [deleteClick_state, hadd]
    have hkeep : state.expenses.filter (fun expense => decide (expense.id ≠ uuid)) =
        state.expenses := by
      rw [List.filter_eq_self]
      intro r hr
      simpa using hfresh r hr
    simp only [List.filter_append, hkeep]
    simp
  refine ⟨⟨_, by rw [hadd], rfl⟩, hback, ?_⟩
  intro r
  rw [hback]

/-- C3, amended, on a document holding the record id-1 and a submission that
receives the identifier id-2. -/
theorem add_then_remove_fresh_witness :
    sampleHost.number (mkForm "2026-03-02" "10" "EUR" "Food").amount = JsNum.fin 10 ∧
    (∀ r ∈ oneRecordState.expenses, r.id ≠ "id-2") ∧
    (deleteClick sampleHost
      (expenseSubmit sampleHost oneRecordState (mkForm "2026-03-02" "10" "EUR" "Food")
        "id-2").state "id-2").state = oneRecordState :=
  ⟨by with_unfolding_all decide, by with_unfolding_all decide,
    (add_then_remove_fresh sampleHost oneRecordState (mkForm "2026-03-02" "10" "EUR" "Food")
      "id-2" 10 (by with_unfolding_all decide) (by norm_num)
      (by with_unfolding_all decide)).2.1⟩

/-! ## C4: stored amounts are finite and positive -/

/-- The invariant of the collection: every amount is a finite number above zero. -/
theorem handle_preserves_positive (host : Host) (state : State) (a : Action)
    (hinv : ∀ r ∈ state.expenses, ∃ q, r.amount = JsNum.fin q ∧ 0 < q) :
    ∀ r ∈ (handle host state a).state.expenses, ∃ q, r.amount = JsNum.fin q ∧ 0 < q := by
  cases a with
  | tripSubmit form =>
    simp only [handle, tripSubmit, saveThen_state]
    exact hinv
  | expenseSubmit formData uuid =>
    simp only [handle]
    cases hn : host.number formData.amount with
    | fin q =>
      by_cases hpos : 0 < q
      · rw [expenseSubmit_accepts host state formData uuid q hn hpos]
        intro r hr
        rcases List.mem_append.1 hr with h | h
        · exact hinv r h
        · simp only [List.mem_singleton] at h
          subst h
          exact ⟨q, rfl, hpos⟩
      · rw [expenseSubmit_not_positive host state formData uuid (fun q1 h1 => by
          rw [hn] at h1
          cases h1
          exact not_lt.1 hpos)]
        exact hinv
    | nan =>
      rw [expenseSubmit_not_positive host state formData uuid (fun q1 h1 => by
        rw [hn] at h1
        cases h1)]
      exact hinv
    | posInf =>
      rw [expenseSubmit_not_positive host state formData uuid (fun q1 h1 => by
        rw [hn] at h1
        cases h1)]
      exact hinv
    | negInf =>
      rw [expenseSubmit_not_positive host state formData uuid (fun q1 h1 => by
        rw [hn] at h1
        cases h1)]
      exact hinv
  | deleteClick itemId =>
    simp only [handle, deleteClick_state]
    intro r hr
    exact hinv r (List.mem_filter.1 hr).1
  | clearAllClick confirmed =>
    cases confirmed with
    | false => simpa [handle, clearAllClick] using hinv
    | true => simp [handle, clearAllClick, saveThen_state]
  | exportCsvClick =>
    simp only [handle, exportCsvClick]
    cases exportRows state <;> exact hinv

theorem runActions_preserves_positive (host : Host) (actions : List Action) :
    ∀ state : State, (∀ r ∈ state.expenses, ∃ q, r.amount = JsNum.fin q ∧ 0 < q) →
      ∀ r ∈ (runActions host state actions).expenses, ∃ q, r.amount = JsNum.fin q ∧ 0 < q := by
  induction actions with
  | nil => exact fun state hinv => hinv
  | cons a rest ih =>
    exact fun state hinv => ih _ (handle_preserves_positive host state a hinv)

/-- C4. In every state reached from the default document by a finite sequence
of profile updates, expense submissions (accepted or rejected), removals,
resets (confirmed or not) and exports, whatever the browser answers, every
stored record has a finite amount greater than zero. -/
theorem reachable_amounts_finite_positive (host : Host) (actions : List Action) :
    ∀ r ∈ (runActions host defaultState actions).expenses,
      r.amount.isFinite = true ∧ JsNum.lt (JsNum.fin 0) r.amount = true ∧
        ∃ q, r.amount = JsNum.fin q ∧ 0 < q := by
  intro r hr
  obtain ⟨q, hq, hpos⟩ := runActions_preserves_positive host actions defaultState
    (by simp [defaultState]) r hr
  exact ⟨by simp [hq, JsNum.isFinite], by simp [hq, JsNum.lt, hpos], q, hq, hpos⟩

/-- C4 on a run with an accepted submission, a rejected one (amount -5), a
removal of an unknown identifier and a profile update: the one stored record
has the finite amount 40. -/
theorem reachable_amounts_finite_positive_witness :
    mkExpense "id-1" "2026-03-02" 40 "EUR" "Food" ∈
      (runActions sampleHost defaultState sampleActions).expenses ∧
    (mkExpense "id-1" "2026-03-02" 40 "EUR" "Food").amount.isFinite = true ∧
    JsNum.lt (JsNum.fin 0) (mkExpense "id-1" "2026-03-02" 40 "EUR" "Food").amount = true :=
  have hmem : mkExpense "id-1" "2026-03-02" 40 "EUR" "Food" ∈
      (runActions sampleHost defaultState sampleActions).expenses := by
    have hrun : (runActions sampleHost defaultState sampleActions).expenses =
        [mkExpense "id-1" "2026-03-02" 40 "EUR" "Food"] := by
      with_unfolding_all rfl
    rw [hrun]
    exact List.mem_singleton.2 rfl
  have h := reachable_amounts_finite_positive sampleHost sampleActions _ hmem
  ⟨hmem, h.1, h.2.1⟩

/-! ## C5: the rows of the export -/

theorem foldl_push_rows (rows : List (List (String ⊕ JsNum))) (items : List Expense) :
    items.foldl (fun rows item => rows ++ [exportRow item]) rows =
      rows ++ items.map exportRow := by
  induction items generalizing rows with
  | nil => simp
  | cons item rest ih => simp [ih]

/-- C5, as stated, fails: the export handler does not sort. For two records
entered in ascending date order the record rows come out in that order, the
earlier date first. -/
theorem export_not_descending_counterexample :
    exportRows ascendingState =
      some [exportHeader,
        exportRow (mkExpense "id-1" "2026-03-01" 40 "EUR" "Food"),
        exportRow (mkExpense "id-2" "2026-03-02" 10 "EUR" "Food")] ∧
    ¬ ((mkExpense "id-1" "2026-03-01" 40 "EUR" "Food").date ≥
        (mkExpense "id-2" "2026-03-02" 10 "EUR" "Food").date) := by
  refine ⟨by with_unfolding_all rfl, ?_⟩
  simp only [mkExpense, ge_iff_le, String.le_iff_toList_le]
  decide

/-- C5, amended. For a non-empty collection the rows built by the export
handler are the fixed header row followed by one row per record (date, amount,
currency, category, payment, note), the record rows in the stored order of the
collection. -/
theorem exportRows_stored_order (state : State) (hne : state.expenses ≠ []) :
    exportRows state = some (exportHeader :: state.expenses.map exportRow) ∧
    (exportCsvClick state).effects =
      [Effect.downloaded (exportHeader :: state.expenses.map exportRow)] ∧
    (exportCsvClick state).state = state := by
  have hrows : exportRows state = some (exportHeader :: state.expenses.map exportRow) := by
    unfold exportRows
    rw [if_neg (by simpa using hne), foldl_push_rows]
    rfl
  refine ⟨hrows, ?_, ?_⟩ <;> simp [exportCsvClick, hrows]

/-- C5, amended, on the two records entered in ascending date order. -/
theorem exportRows_stored_order_witness :
    ascendingState.expenses ≠ [] ∧
    exportRows ascendingState =
      some (exportHeader :: ascendingState.expenses.map exportRow) :=
  ⟨by with_unfolding_all decide,
    (exportRows_stored_order ascendingState (by with_unfolding_all decide)).1⟩

/-! ## C7: a failing write to the store -/

/-- C7, the behaviour of the code when the store rejects the write: saveState
has no handler around setItem, so in each mutating handler the error leaves the
handler and the steps after saveState (form reset, renderAll) do not run, while
the document already holds the result of the mutation. -/
theorem save_failure_leaves_handler :
    expenseSubmit fullHost defaultState (mkForm "2026-03-02" "40" "EUR" "Food") "id-1" =
      { state := { defaultState with
          expenses := [mkExpense "id-1" "2026-03-02" 40 "EUR" "Food"] }
        thrown := some "QuotaExceededError"
        effects := [] } ∧
    (deleteClick fullHost oneRecordState "id-1") =
      { state := { oneRecordState with expenses := [] }
        thrown := some "QuotaExceededError"
        effects := [] } ∧
    (clearAllClick fullHost oneRecordState true) =
      { state := defaultState, thrown := some "QuotaExceededError", effects := [] } ∧
    (tripSubmit fullHost defaultState
        { travelerName := "Ann", tripName := "Gent", tripStart := "2026-03-01",
          tripEnd := "2026-03-05", tripBudget := "100", tripCurrency := "EUR" }).thrown =
      some "QuotaExceededError" ∧
    expenseSubmit sampleHost defaultState (mkForm "2026-03-02" "40" "EUR" "Food") "id-1" =
      { state := { defaultState with
          expenses := [mkExpense "id-1" "2026-03-02" 40 "EUR" "Food"] }
        thrown := none
        effects := [.saved "", .formReset, .rendered] } := by
  refine ⟨?_, ?_, ?_, ?_, ?_⟩ <;> with_unfolding_all rfl

/-! ## C8: loading the stored blob -/

/-- C8, as stated, fails: loadState checks no shape. A stored blob that parses
to the number 42 is returned as the state, although it has not the document
shape and differs from the default document. -/
theorem loadState_wrong_shape_counterexample :
    numberBlobHost.getItem STORAGE_KEY = .ok (some "42") ∧
    numberBlobHost.parse "42" = .ok (Json.num (JsNum.fin 42)) ∧
    hasDocShape (Json.num (JsNum.fin 42)) = false ∧
    loadState numberBlobHost = Json.num (JsNum.fin 42) ∧
    loadState numberBlobHost ≠ defaultState.toJson := by
  have hload : loadState numberBlobHost = Json.num (JsNum.fin 42) := by
    simp [loadState, numberBlobHost, sampleHost]
  refine ⟨rfl, by simp [numberBlobHost], rfl, hload, ?_⟩
  rw [hload]
  intro h
  simp [State.toJson] at h

/-- C8, amended. The function loadState returns the default document when the
read of the store throws, when the blob is absent (null) or the empty string,
and when the blob does not parse; when the blob is a non-empty string that
parses, it returns the parsed value as it is, whatever its shape. -/
theorem loadState_cases (host : Host) :
    (∀ e, host.getItem STORAGE_KEY = .error e → loadState host = defaultState.toJson) ∧
    (host.getItem STORAGE_KEY = .ok none → loadState host = defaultState.toJson) ∧
    (host.getItem STORAGE_KEY = .ok (some "") → loadState host = defaultState.toJson) ∧
    (∀ raw e, host.getItem STORAGE_KEY = .ok (some raw) → host.parse raw = .error e →
      loadState host = defaultState.toJson) ∧
    (∀ raw value, host.getItem STORAGE_KEY = .ok (some raw) → raw ≠ "" →
      host.parse raw = .ok value → loadState host = value) := by
  refine ⟨?_, ?_, ?_, ?_, ?_⟩
  · intro e h
    simp [loadState, h]
  · intro h
    simp [loadState, h]
  · intro h
    simp [loadState, h]
  · intro raw e h hp
    by_cases hraw : raw = "" <;> simp [loadState, h, hp, hraw]
  · intro raw value h hraw hp
    simp [loadState, h, hp, hraw]

/-- C8, amended, on a store whose read throws, an absent blob, an empty blob,
a blob that does not parse, and a blob that parses to the number 42. -/
theorem loadState_cases_witness :
    lockedHost.getItem STORAGE_KEY = .error "SecurityError" ∧
    loadState lockedHost = defaultState.toJson ∧
    sampleHost.getItem STORAGE_KEY = .ok none ∧
    loadState sampleHost = defaultState.toJson ∧
    emptyBlobHost.getItem STORAGE_KEY = .ok (some "") ∧
    loadState emptyBlobHost = defaultState.toJson ∧
    corruptBlobHost.getItem STORAGE_KEY = .ok (some "not json") ∧
    corruptBlobHost.parse "not json" = .error "SyntaxError" ∧
    loadState corruptBlobHost = defaultState.toJson ∧
    numberBlobHost.getItem STORAGE_KEY = .ok (some "42") ∧ "42" ≠ "" ∧
    numberBlobHost.parse "42" = .ok (Json.num (JsNum.fin 42)) ∧
    loadState numberBlobHost = Json.num (JsNum.fin 42) :=
  ⟨rfl, (loadState_cases lockedHost).1 "SecurityError" rfl,
    rfl, (loadState_cases sampleHost).2.1 rfl,
    rfl, (loadState_cases emptyBlobHost).2.2.1 rfl,
    rfl, rfl, (loadState_cases corruptBlobHost).2.2.2.1 "not json" "SyntaxError" rfl rfl,
    rfl, by decide, by simp [numberBlobHost],
    (loadState_cases numberBlobHost).2.2.2.2 "42" (Json.num (JsNum.fin 42)) rfl (by decide)
      (by simp [numberBlobHost])⟩

/-! ## Lemmas on sorting -/

theorem insertSorted_perm {α : Type} (cmp : α → α → JsNum) (x : α) (l : List α) :
    (insertSorted cmp x l).Perm (x :: l) := by
  induction l with
  | nil => exact List.Perm.refl _
  | cons y ys ih =>
    unfold insertSorted
    split
    · exact ((List.Perm.cons y ih).trans (List.Perm.swap x y ys))
    · exact List.Perm.refl _

theorem jsSort_perm {α : Type} (cmp : α → α → JsNum) (l : List α) :
    (jsSort cmp l).Perm l := by
  induction l with
  | nil => exact List.Perm.refl _
  | cons x xs ih =>
    exact (insertSorted_perm cmp x (jsSort cmp xs)).trans (List.Perm.cons x ih)

theorem insertSorted_pairwise {α : Type} (cmp : α → α → JsNum) (r : α → α → Prop)
    (htrans : ∀ a b c, r a b → r b c → r a c) (x : α) (l : List α)
    (hcmp : ∀ y ∈ l, if JsNum.lt (JsNum.fin 0) (cmp x y) = true then r y x else r x y)
    (hl : l.Pairwise r) : (insertSorted cmp x l).Pairwise r := by
  induction l with
  | nil => simp [insertSorted]
  | cons y ys ih =>
    have hy := hcmp y (by simp)
    rw [List.pairwise_cons] at hl
    unfold insertSorted
    by_cases hgt : JsNum.lt (JsNum.fin 0) (cmp x y) = true
    · rw [if_pos hgt] at hy
      rw [if_pos hgt, List.pairwise_cons]
      refine ⟨?_, ih (fun z hz => hcmp z (List.mem_cons_of_mem _ hz)) hl.2⟩
      intro z hz
      rcases List.mem_cons.1 ((insertSorted_perm cmp x ys).mem_iff.1 hz) with h | h
      · rw [h]
        exact hy
      · exact hl.1 z h
    · rw [if_neg hgt] at hy
      rw [if_neg hgt, List.pairwise_cons]
      refine ⟨?_, List.pairwise_cons.2 hl⟩
      intro z hz
      rcases List.mem_cons.1 hz with h | h
      · rw [h]
        exact hy
      · exact htrans _ _ _ hy (hl.1 z h)

/-- The sort arranges the list by a transitive relation r whenever, on the
elements of the list, the comparator puts x after y only if r y x, and leaves
x before y only if r x y. -/
theorem jsSort_pairwise {α : Type} (cmp : α → α → JsNum) (r : α → α → Prop)
    (htrans : ∀ a b c, r a b → r b c → r a c) (l : List α)
    (hcmp : ∀ x ∈ l, ∀ y ∈ l,
      if JsNum.lt (JsNum.fin 0) (cmp x y) = true then r y x else r x y) :
    (jsSort cmp l).Pairwise r := by
  induction l with
  | nil => simp [jsSort]
  | cons x xs ih =>
    refine insertSorted_pairwise cmp r htrans x (jsSort cmp xs) ?_ ?_
    · intro y hy
      exact hcmp x (by simp) y (List.mem_cons_of_mem _ ((jsSort_perm cmp xs).mem_iff.1 hy))
    · exact ih (fun a ha b hb =>
        hcmp a (List.mem_cons_of_mem _ ha) b (List.mem_cons_of_mem _ hb))

theorem lt_fin (a b : ℚ) : JsNum.lt (JsNum.fin a) (JsNum.fin b) = decide (a < b) := rfl

theorem localeCompare_pos_iff (a b : String) :
    JsNum.lt (JsNum.fin 0) (localeCompare a b) = true ↔ b < a := by
  rw [String.lt_iff_toList_lt]
  unfold localeCompare
  by_cases h1 : a.toList < b.toList
  · rw [if_pos h1, lt_fin]
    have hn : ¬ b.toList < a.toList := not_lt_of_lt h1
    simp only [hn, iff_false, decide_eq_true_eq]
    norm_num
  · rw [if_neg h1]
    by_cases h2 : b.toList < a.toList
    · rw [if_pos h2, lt_fin]
      simp only [h2, iff_true, decide_eq_true_eq]
      norm_num
    · rw [if_neg h2, lt_fin]
      simp only [h2, iff_false, decide_eq_true_eq]
      norm_num

/-! ## C9: the order of the table -/

/-- C9. The records shown by renderTable are a permutation of the stored
collection (none dropped, none duplicated), the stored document is the same
after the call, and the records are shown by date descending in the
lexicographic order of the date strings. -/
theorem renderTable_sorted_perm (state : State) :
    (renderTable state).1 = state ∧
    (renderTable state).2.items.Perm state.expenses ∧
    (renderTable state).2.items.Pairwise (fun a b => a.date ≥ b.date) := by
  unfold renderTable
  by_cases hlen : state.expenses.length = 0
  · have hnil : state.expenses = [] := List.length_eq_zero.1 hlen
    simp [hlen, hnil, TableView.items]
  · simp only [if_neg hlen, TableView.items]
    refine ⟨trivial, jsSort_perm _ _, ?_⟩
    refine jsSort_pairwise _ (fun (a b : Expense) => a.date ≥ b.date)
      (fun a b c hab hbc => le_trans hbc hab) _ ?_
    intro x _ y _
    by_cases hgt : JsNum.lt (JsNum.fin 0) (localeCompare y.date x.date) = true
    · rw [if_pos hgt]
      exact le_of_lt ((localeCompare_pos_iff _ _).1 hgt)
    · rw [if_neg hgt]
      exact not_lt.1 (fun h => hgt ((localeCompare_pos_iff _ _).2 h))

/-! ## C6: the remaining budget of a tile -/

theorem max_zero_not_negative (x : JsNum) :
    JsNum.lt (JsNum.max (JsNum.fin 0) x) (JsNum.fin 0) = false := by
  cases x with
  | fin q =>
    by_cases hq : (0 : ℚ) ≤ q
    · simp [JsNum.max, JsNum.lt, hq]
    · simp [JsNum.max, JsNum.lt, hq]
  | nan => rfl
  | posInf => rfl
  | negInf => simp [JsNum.max, JsNum.lt]

theorem tiles_eq (host : Host) (state : State) :
    (renderOverview host state).tiles =
      (overviewTotalsByCurrency state.expenses).map
        (overviewTile host state (overviewTotalsByCategory state.expenses)) := by
  unfold renderOverview
  by_cases hlen : (overviewTotalsByCurrency state.expenses).length = 0
  · simp [hlen, OverviewView.tiles, List.length_eq_zero.1 hlen]
  · simp [hlen, OverviewView.tiles]

theorem mem_tiles (host : Host) (state : State) (t : Tile)
    (ht : t ∈ (renderOverview host state).tiles) :
    ∃ entry ∈ overviewTotalsByCurrency state.expenses,
      t = overviewTile host state (overviewTotalsByCategory state.expenses) entry := by
  rw [tiles_eq, List.mem_map] at ht
  obtain ⟨entry, hmem, heq⟩ := ht
  exact ⟨entry, hmem, heq.symm⟩

/-- There is one tile per currency that occurs in the collection. -/
theorem tiles_cover (host : Host) (state : State) :
    ((renderOverview host state).tiles.map (fun t => t.currency)).Nodup ∧
    (∀ r ∈ state.expenses, ∃ t ∈ (renderOverview host state).tiles, t.currency = r.currency) ∧
    (∀ t ∈ (renderOverview host state).tiles, ∃ r ∈ state.expenses, r.currency = t.currency) := by
  have hkeys := foldl_addTo_keys (fun r => r.currency) state.expenses
  have hcur : (renderOverview host state).tiles.map (fun t => t.currency) =
      (overviewTotalsByCurrency state.expenses).map Prod.fst := by
    rw [tiles_eq, List.map_map]
    rfl
  refine ⟨by rw [hcur]; exact hkeys.1, ?_, ?_⟩
  · intro r hr
    have hk : r.currency ∈ (renderOverview host state).tiles.map (fun t => t.currency) := by
      rw [hcur]
      exact (hkeys.2 _).2 (List.mem_map.2 ⟨r, hr, rfl⟩)
    obtain ⟨t, ht, htc⟩ := List.mem_map.1 hk
    exact ⟨t, ht, htc⟩
  · intro t ht
    have hk : t.currency ∈ (overviewTotalsByCurrency state.expenses).map Prod.fst := by
      rw [← hcur]
      exact List.mem_map.2 ⟨t, ht, rfl⟩
    obtain ⟨r, hr, hrc⟩ := List.mem_map.1 ((hkeys.2 _).1 hk)
    exact ⟨r, hr, hrc⟩

/-- C6. For a document whose currency codes and categories are plain
dictionary keys: there is one tile per currency that occurs, and for every
tile, the tile carries the total stored for its currency (for finite amounts,
the JS sum of the amounts of the records of that currency); a remaining amount
is computed exactly when the currency of the tile is the currency of the
profile and the budget field is set (not empty); it is then
Math.max(0, Number(budget) - total), and it is never below zero. -/
theorem overview_remaining (host : Host) (state : State)
    (_hkeys : ∀ r ∈ state.expenses, plainKey r.currency = true ∧ plainKey r.category = true) :
    ((renderOverview host state).tiles.map (fun t => t.currency)).Nodup ∧
    (∀ r ∈ state.expenses, ∃ t ∈ (renderOverview host state).tiles, t.currency = r.currency) ∧
    ∀ t ∈ (renderOverview host state).tiles,
      (∃ r ∈ state.expenses, r.currency = t.currency) ∧
      dictGet (overviewTotalsByCurrency state.expenses) t.currency = some t.total ∧
      ((∀ r ∈ state.expenses, r.amount.isFinite = true) →
        t.total = jsSum ((currencyGroup state t.currency).map (fun r => r.amount))) ∧
      (t.remaining.isSome = true ↔
        (t.currency = state.trip.currency ∧ state.trip.budget ≠ "")) ∧
      (∀ r, t.remaining = some r →
        r = JsNum.max (JsNum.fin 0) (JsNum.sub (host.number state.trip.budget) t.total) ∧
        JsNum.lt r (JsNum.fin 0) = false) := by
  refine ⟨(tiles_cover host state).1, (tiles_cover host state).2.1, ?_⟩
  intro t ht
  have hocc := (tiles_cover host state).2.2 t ht
  obtain ⟨entry, hmem, rfl⟩ := mem_tiles host state t ht
  have hget : dictGet (overviewTotalsByCurrency state.expenses) entry.1 = some entry.2 :=
    dictGet_of_mem _ (foldl_addTo_keys (fun r => r.currency) state.expenses).1 _ _ hmem
  have hrem : ∀ r, (overviewTile host state (overviewTotalsByCategory state.expenses)
        entry).remaining = some r →
      r = JsNum.max (JsNum.fin 0) (JsNum.sub (host.number state.trip.budget) entry.2) := by
    intro r hr
    simp only [overviewTile] at hr
    split at hr
    · exact (Option.some.inj hr).symm
    · cases hr
  refine ⟨hocc, hget, ?_, ?_, ?_⟩
  · intro hfin
    have hsum := foldl_addTo_get (fun r => r.currency) state.expenses hfin entry.1
    have hget1 := hget
    unfold overviewTotalsByCurrency at hget1
    rw [hsum] at hget1
    simp only [overviewTile, currencyGroup]
    by_cases hnil : state.expenses.filter (fun r => decide (r.currency = entry.1)) = []
    · rw [if_pos hnil] at hget1
      cases hget1
    · rw [if_neg hnil] at hget1
      exact (Option.some.inj hget1).symm
  · simp only [overviewTile]
    by_cases hc : entry.1 = state.trip.currency <;>
      by_cases hb : state.trip.budget = "" <;> simp [hc, hb]
  · intro r hr
    have h := hrem r hr
    exact ⟨h, by rw [h]; exact max_zero_not_negative _⟩

/-- C6, the scenario of the claim: with the budget 100 EUR, expenses of 30 EUR
leave 70, and expenses of 30 and 90 EUR leave 0. -/
theorem overview_remaining_witness :
    (∀ r ∈ budgetState30.expenses, plainKey r.currency = true ∧ plainKey r.category = true) ∧
    (renderOverview sampleHost budgetState30).tiles =
      [{ currency := "EUR", total := JsNum.fin 30, budgetMatch := true,
         remaining := some (JsNum.fin 70), categories := [("Food", JsNum.fin 30)] }] ∧
    (∀ r ∈ budgetState120.expenses, plainKey r.currency = true ∧ plainKey r.category = true) ∧
    (renderOverview sampleHost budgetState120).tiles =
      [{ currency := "EUR", total := JsNum.fin 120, budgetMatch := true,
         remaining := some (JsNum.fin 0),
         categories := [("Hotel", JsNum.fin 90), ("Food", JsNum.fin 30)] }] ∧
    (JsNum.fin 70 = JsNum.max (JsNum.fin 0)
        (JsNum.sub (sampleHost.number budgetState30.trip.budget) (JsNum.fin 30)) ∧
      JsNum.lt (JsNum.fin 70) (JsNum.fin 0) = false) ∧
    (JsNum.fin 0 = JsNum.max (JsNum.fin 0)
        (JsNum.sub (sampleHost.number budgetState120.trip.budget) (JsNum.fin 120)) ∧
      JsNum.lt (JsNum.fin 0) (JsNum.fin 0) = false) :=
  have hk30 : ∀ r ∈ budgetState30.expenses,
      plainKey r.currency = true ∧ plainKey r.category = true := by decide!
  have hk120 : ∀ r ∈ budgetState120.expenses,
      plainKey r.currency = true ∧ plainKey r.category = true := by decide!
  have h30 : (renderOverview sampleHost budgetState30).tiles =
      [{ currency := "EUR", total := JsNum.fin 30, budgetMatch := true,
         remaining := some (JsNum.fin 70), categories := [("Food", JsNum.fin 30)] }] := by
    decide!
  have h120 : (renderOverview sampleHost budgetState120).tiles =
      [{ currency := "EUR", total := JsNum.fin 120, budgetMatch := true,
         remaining := some (JsNum.fin 0),
         categories := [("Hotel", JsNum.fin 90), ("Food", JsNum.fin 30)] }] := by
    decide!
  ⟨hk30, h30, hk120, h120,
    ((overview_remaining sampleHost budgetState30 hk30).2.2
      { currency := "EUR", total := JsNum.fin 30, budgetMatch := true,
        remaining := some (JsNum.fin 70), categories := [("Food", JsNum.fin 30)] }
      (by rw [h30]; exact List.mem_singleton.2 rfl)).2.2.2.2 (JsNum.fin 70) rfl,
    ((overview_remaining sampleHost budgetState120 hk120).2.2
      { currency := "EUR", total := JsNum.fin 120, budgetMatch := true,
        remaining := some (JsNum.fin 0),
        categories := [("Hotel", JsNum.fin 90), ("Food", JsNum.fin 30)] }
      (by rw [h120]; exact List.mem_singleton.2 rfl)).2.2.2.2 (JsNum.fin 0) rfl⟩

/-! ## C10: the top categories of a tile -/

/-- The category dictionary stored for a currency is the accumulation over
the records of that currency. -/
theorem overviewTotalsByCategory_get (xs : List Expense) (c : String) :
    (dictGet (overviewTotalsByCategory xs) c).getD [] =
      (xs.filter (fun r => decide (r.currency = c))).foldl
        (fun totals item => addTo totals item.category item.amount) [] := by
  induction xs using List.reverseRecOn with
  | nil => simp [overviewTotalsByCategory, dictGet]
  | append_singleton xs x ih =>
    have hstep : overviewTotalsByCategory (xs ++ [x]) =
        dictSet (overviewTotalsByCategory xs) x.currency
          (addTo ((dictGet (overviewTotalsByCategory xs) x.currency).getD [])
            x.category x.amount) := by
      simp [overviewTotalsByCategory, List.foldl_append]
    rw [hstep, dictGet_dictSet, List.filter_append]
    by_cases hc : x.currency = c
    · subst hc
      have hfx : [x].filter (fun r => decide (r.currency = x.currency)) = [x] := by simp
      rw [if_pos rfl, hfx, List.foldl_append, Option.getD_some, ih]
      rfl
    · have hfx : [x].filter (fun r => decide (r.currency = c)) = [] := by simp [hc]
      rw [if_neg hc, hfx, List.append_nil, ih]

/-- C10, as stated, fails: the listed totals are sums of doubles, which
round. With two Food records of 0.1 and 0.2 EUR (the doubles nearest to them)
and a Hotel record of 90 EUR, the EUR tile lists Food with the double
0.30000000000000004, which is not the exact sum of the amounts of the two
Food records. -/
theorem overview_exact_category_counterexample :
    (currencyGroup pointCategoryState "EUR").map (fun r => (r.category, r.amount)) =
      [("Food", JsNum.fin (3602879701896397 / 36028797018963968)),
       ("Food", JsNum.fin (3602879701896397 / 18014398509481984)),
       ("Hotel", JsNum.fin 90)] ∧
    (renderOverview sampleHost pointCategoryState).tiles.map
        (fun t => (t.currency, t.categories)) =
      [("EUR", [("Hotel", JsNum.fin 90),
        ("Food", JsNum.fin (1351079888211149 / 4503599627370496))])] ∧
    JsNum.fin (1351079888211149 / 4503599627370496) ≠
      JsNum.fin ((((currencyGroup pointCategoryState "EUR").filter
        (fun r => decide (r.category = "Food"))).map (fun r => r.amount.toRat)).sum) := by
  decide!

/-- C10, amended. For a collection whose amounts are finite numbers and whose
currency codes and categories are plain dictionary keys: there is one tile per
currency that occurs, and for every tile, with the group being the records of
the currency of the tile, the listed categories are distinct and number
min(3, number of distinct categories of the group); each is a category of the
group, listed with the JS sum of the amounts of the records of the group in it
(added in stored order, each addition rounding to the nearest double); the
listed totals are in non-increasing order; and every category of the group
that is not listed has such a total at most the total of every listed one. -/
theorem overview_top_categories (host : Host) (state : State)
    (hfin : ∀ r ∈ state.expenses, r.amount.isFinite = true)
    (_hkeys : ∀ r ∈ state.expenses, plainKey r.currency = true ∧ plainKey r.category = true) :
    ((renderOverview host state).tiles.map (fun t => t.currency)).Nodup ∧
    (∀ r ∈ state.expenses, ∃ t ∈ (renderOverview host state).tiles, t.currency = r.currency) ∧
    ∀ t ∈ (renderOverview host state).tiles,
      (t.categories.map Prod.fst).Nodup ∧
      t.categories.length =
        min 3 ((currencyGroup state t.currency).map (fun r => r.category)).dedup.length ∧
      (∀ p ∈ t.categories,
        (∃ r ∈ currencyGroup state t.currency, r.category = p.1) ∧
        p.2 = categoryTotal (currencyGroup state t.currency) p.1) ∧
      t.categories.Pairwise (fun a b => JsNum.le b.2 a.2 = true) ∧
      (∀ r ∈ currencyGroup state t.currency, r.category ∉ t.categories.map Prod.fst →
        ∀ p ∈ t.categories,
          JsNum.le (categoryTotal (currencyGroup state t.currency) r.category) p.2 = true) := by
  refine ⟨(tiles_cover host state).1, (tiles_cover host state).2.1, ?_⟩
  intro t ht
  obtain ⟨entry, _, rfl⟩ := mem_tiles host state t ht
  have hcur : (overviewTile host state (overviewTotalsByCategory state.expenses)
      entry).currency = entry.1 := rfl
  rw [hcur]
  -- the category dictionary of the tile
  have hD := overviewTotalsByCategory_get state.expenses entry.1
  have hcats : (overviewTile host state (overviewTotalsByCategory state.expenses)
      entry).categories =
      (jsSort (fun a b => JsNum.sub b.2 a.2)
        ((currencyGroup state entry.1).foldl
          (fun totals item => addTo totals item.category item.amount) [])).take 3 := by
    simp only [overviewTile, hD, currencyGroup]
  rw [hcats]
  have hGfin : ∀ r ∈ currencyGroup state entry.1, r.amount.isFinite = true :=
    fun r hr => hfin r (List.mem_filter.1 hr).1
  generalize currencyGroup state entry.1 = G at hGfin ⊢
  have hkeys := foldl_addTo_keys (fun r => r.category) G
  have hget := foldl_addTo_get (fun r => r.category) G hGfin
  generalize hDdef : G.foldl (fun totals item => addTo totals item.category item.amount) [] = D
    at hkeys hget
  -- every entry of the dictionary holds the JS sum of its category
  have hval : ∀ p ∈ D, (∃ r ∈ G, r.category = p.1) ∧ p.2 = categoryTotal G p.1 := by
    intro p hp
    have h1 := dictGet_of_mem D hkeys.1 p.1 p.2 hp
    rw [hget p.1] at h1
    by_cases hnil : G.filter (fun r => decide (r.category = p.1)) = []
    · rw [if_pos hnil] at h1
      cases h1
    · rw [if_neg hnil] at h1
      refine ⟨?_, (Option.some.inj h1).symm⟩
      obtain ⟨r, hr⟩ := List.exists_mem_of_ne_nil _ hnil
      rw [List.mem_filter] at hr
      exact ⟨r, hr.1, by simpa using hr.2⟩
  have hgrid : ∀ p ∈ D, p.2.OnGrid := by
    intro p hp
    rw [(hval p hp).2]
    refine jsSum_onGrid _ (fun v hv => ?_)
    obtain ⟨r, hr, rfl⟩ := List.mem_map.1 hv
    exact hGfin r (List.mem_filter.1 hr).1
  have hperm := jsSort_perm (fun (a b : String × JsNum) => JsNum.sub b.2 a.2) D
  have hsorted : (jsSort (fun (a b : String × JsNum) => JsNum.sub b.2 a.2) D).Pairwise
      (fun a b => JsNum.le b.2 a.2 = true) := by
    refine jsSort_pairwise _ (fun (a b : String × JsNum) => JsNum.le b.2 a.2 = true)
      (fun a b c hab hbc => le_trans_js _ _ _ hbc hab) D ?_
    intro x hx y hy
    exact sub_comparator x.2 y.2 (hgrid x hx) (hgrid y hy)
  generalize jsSort (fun (a b : String × JsNum) => JsNum.sub b.2 a.2) D = S at hperm hsorted
  have hSnodup : (S.map Prod.fst).Nodup := (hperm.map Prod.fst).nodup_iff.2 hkeys.1
  refine ⟨?_, ?_, ?_, ?_, ?_⟩
  · rw [List.map_take]
    exact hSnodup.sublist (List.take_sublist _ _)
  · have hlen : D.length = ((G.map (fun r => r.category)).dedup).length := by
      have hp : (D.map Prod.fst).Perm ((G.map (fun r => r.category)).dedup) := by
        rw [List.perm_ext_iff_of_nodup hkeys.1 (List.nodup_dedup _)]
        intro a
        rw [hkeys.2 a, List.mem_dedup]
      simpa using hp.length_eq
    rw [List.length_take, hperm.length_eq, hlen]
  · intro p hp
    exact hval p (hperm.mem_iff.1 (List.mem_of_mem_take hp))
  · exact hsorted.sublist (List.take_sublist _ _)
  · intro r hr hnot p hp
    have hrkey : r.category ∈ D.map Prod.fst := (hkeys.2 _).2 (List.mem_map.2 ⟨r, hr, rfl⟩)
    obtain ⟨q, hqD, hqk⟩ := List.mem_map.1 hrkey
    have hqS : q ∈ S.take 3 ++ S.drop 3 := by
      rw [List.take_append_drop]
      exact hperm.mem_iff.2 hqD
    have hqdrop : q ∈ S.drop 3 := by
      rcases List.mem_append.1 hqS with h | h
      · exact absurd (List.mem_map.2 ⟨q, h, hqk⟩) hnot
      · exact h
    rw [← List.take_append_drop 3 S, List.pairwise_append] at hsorted
    have hpq := hsorted.2.2 p hp q hqdrop
    have hqv := (hval q hqD).2
    rw [hqk] at hqv
    rw [hqv] at hpq
    exact hpq

/-- C10, amended, on five EUR records in four categories and one USD record:
there are an EUR and a USD tile, and the EUR tile lists Hotel 90, Food 45 and
Transit 20 and leaves out Gift 5. -/
theorem overview_top_categories_witness :
    (∀ r ∈ fourCategoryState.expenses, r.amount.isFinite = true) ∧
    (∀ r ∈ fourCategoryState.expenses,
      plainKey r.currency = true ∧ plainKey r.category = true) ∧
    (renderOverview sampleHost fourCategoryState).tiles =
      [fourCategoryEurTile,
       { currency := "USD", total := JsNum.fin 200, budgetMatch := false, remaining := none,
         categories := [("Gift", JsNum.fin 200)] }] ∧
    fourCategoryEurTile.categories.length =
      min 3 ((currencyGroup fourCategoryState fourCategoryEurTile.currency).map
        (fun r => r.category)).dedup.length ∧
    fourCategoryEurTile.categories.Pairwise (fun a b => JsNum.le b.2 a.2 = true) ∧
    (∀ p ∈ fourCategoryEurTile.categories,
      JsNum.le (categoryTotal (currencyGroup fourCategoryState fourCategoryEurTile.currency)
        "Gift") p.2 = true) :=
  have hfin : ∀ r ∈ fourCategoryState.expenses, r.amount.isFinite = true := by decide!
  have hkeys : ∀ r ∈ fourCategoryState.expenses,
      plainKey r.currency = true ∧ plainKey r.category = true := by decide!
  have htiles : (renderOverview sampleHost fourCategoryState).tiles =
      [fourCategoryEurTile,
       { currency := "USD", total := JsNum.fin 200, budgetMatch := false, remaining := none,
         categories := [("Gift", JsNum.fin 200)] }] := by
    decide!
  have hmem : fourCategoryEurTile ∈ (renderOverview sampleHost fourCategoryState).tiles := by
    rw [htiles]
    exact List.mem_cons_self _ _
  ⟨hfin, hkeys, htiles,
    ((overview_top_categories sampleHost fourCategoryState hfin hkeys).2.2
      fourCategoryEurTile hmem).2.1,
    ((overview_top_categories sampleHost fourCategoryState hfin hkeys).2.2
      fourCategoryEurTile hmem).2.2.2.1,
    ((overview_top_categories sampleHost fourCategoryState hfin hkeys).2.2
      fourCategoryEurTile hmem).2.2.2.2
      (mkExpense "id-4" "2026-03-02" 5 "EUR" "Gift") (by decide!) (by decide!)⟩

end TripLedger
